import Mathlib

/-!
Verification of pyicloud photo-library core (src/pyicloud/utils/photos.py and
src/pyicloud/services/photos.py) against its natural-language specification.

The Python code is shallowly embedded: Python dictionaries become association
lists (lookup returns the first binding; assignment replaces the existing
binding in place or appends, so the lists built here have unique keys and
behave exactly like insertion-ordered dicts), fallible Python code becomes
Except-valued Lean functions (the error string standing for the raised
exception), and the external collaborators that are not part of the sources
(BPListReader.parse, base64.b64decode, str.decode) are abstract function
parameters bundled in a structure, so every theorem quantifies over their
behaviour.
-/

/-- A Python runtime value, restricted to the shapes the embedded code
inspects: None, bool, int, str, bytes, tuple and dict (string keys). -/
inductive PyVal where
  | none
  | bool (b : Bool)
  | int (n : Int)
  | str (s : String)
  | bytes (bs : List Nat)
  | tuple (xs : List PyVal)
  | dict (xs : List (String × PyVal))

/-- Python truthiness for the embedded value shapes. -/
def truthy : PyVal → Bool
  | .none => false
  | .bool b => b
  | .int n => n != 0
  | .str s => s != ""
  | .bytes bs => !bs.isEmpty
  | .tuple xs => !xs.isEmpty
  | .dict xs => !xs.isEmpty

/-- Dictionary lookup on an association list. The lists built in this file
have unique keys (they are only ever grown through dinsert), so this agrees
with Python dict lookup. -/
def dget : List (String × α) → String → Option α
  | [], _ => Option.none
  | (k', v) :: rest, k => if k' = k then some v else dget rest k

/-- Python dict assignment d[k] = v: replace the existing binding in place
(preserving insertion order) or append a new one at the end. -/
def dinsert (k : String) (v : α) : List (String × α) → List (String × α)
  | [] => [(k, v)]
  | (k', w) :: rest =>
    if k' = k then (k, v) :: rest else (k', w) :: dinsert k v rest

/-- str.lower() (the strings in play are ASCII, where this matches). -/
def pyLower (s : String) : String := String.mk (s.data.map Char.toLower)

/-- str.endswith(t). -/
def pyEndsWith (s t : String) : Bool := t.data.isSuffixOf s.data

/-- str.split(".") on the character list, keeping empty pieces. -/
def pySplitDot : List Char → List (List Char)
  | [] => [[]]
  | c :: rest =>
    let r := pySplitDot rest
    if c = '.' then [] :: r
    else
      match r with
      | [] => [[c]]
      | h :: t => (c :: h) :: t

/-- str.split("."). -/
def pySplit (s : String) : List String := (pySplitDot s.data).map String.mk

/-- key.replace("Enc", ""): delete every non-overlapping occurrence of
"Enc", scanning left to right, exactly as Python str.replace does. -/
def stripEncChars : List Char → List Char
  | 'E' :: 'n' :: 'c' :: rest => stripEncChars rest
  | c :: rest => c :: stripEncChars rest
  | [] => []

/-- key.replace("Enc", "") on strings. -/
def replaceEnc (s : String) : String := String.mk (stripEncChars s.data)

/-- Error raised by the binary-plist reader: BPListReader.BadMagicException
or any other exception (carried as a message). -/
inductive DecodeError where
  | badMagic
  | other (msg : String)

/-- The external collaborators of parse_fields, abstracted: base64.b64decode
(assumed total here; the claims under study presuppose valid base64),
BPListReader(...).parse(), bytes.decode("utf-8") and bytes.decode("utf-16")
(Option.none modelling a UnicodeDecodeError). -/
structure Decoders where
  b64 : PyVal → List Nat
  bplist : List Nat → Except DecodeError PyVal
  utf8 : List Nat → Option String
  utf16 : List Nat → Option String

/-- Embeds `value.get("value", value) if type(value) == dict else value`
(src/pyicloud/utils/photos.py lines 12-13). -/
def envUnwrap : PyVal → PyVal
  | .dict d => (dget d "value").getD (.dict d)
  | v => v

/-- Embeds the bytes branch of parse_fields (lines 28-35): try UTF-8, then
UTF-16, else keep the raw bytes. -/
def textDecode (dec : Decoders) (bs : List Nat) : PyVal :=
  match dec.utf8 bs with
  | some s => .str s
  | Option.none =>
    match dec.utf16 bs with
    | some s => .str s
    | Option.none => .bytes bs

/-- One iteration of the parse_fields loop body (src/pyicloud/utils/photos.py
lines 8-37) for a single key/value, producing the output key and value or the
propagated exception. `recurse` is the nested parse_fields call used for
dict-valued fields. Note line 18: only BadMagicException is caught; any other
parse error escapes. Note line 20: key.replace("Enc", "") removes every
occurrence of "Enc". -/
def processEntry (recurse : List (String × PyVal) → Except String (List (String × PyVal)))
    (dec : Decoders) (key : String) (value : PyVal) :
    Except String (String × PyVal) :=
  let val := envUnwrap value
  let step : Except String (String × PyVal) :=
    if pyEndsWith key "Enc" then
      match dec.bplist (dec.b64 val) with
      | .ok w => .ok (replaceEnc key, w)
      | .error .badMagic => .ok (replaceEnc key, .bytes (dec.b64 val))
      | .error (.other e) => .error e
    else .ok (key, val)
  match step with
  | .error e => .error e
  | .ok (k, v) =>
    let afterDict : Except String PyVal :=
      match v with
      | .dict d =>
        match recurse d with
        | .ok parsed => .ok (.dict parsed)
        | .error e => .error e
      | w => .ok w
    match afterDict with
    | .error e => .error e
    | .ok v1 =>
      let v2 := match v1 with
        | .tuple [_, b] => b
        | w => w
      let v3 := match v2 with
        | .bytes bs => textDecode dec bs
        | w => w
      .ok (k, v3)

/-- The parse_fields iteration over the field mapping, accumulating the
output dict by Python dict assignment (line 37: parsed[key] = val). -/
def parseLoop (recurse : List (String × PyVal) → Except String (List (String × PyVal)))
    (dec : Decoders) (acc : List (String × PyVal)) :
    List (String × PyVal) → Except String (List (String × PyVal))
  | [] => .ok acc
  | (key, value) :: rest =>
    match processEntry recurse dec key value with
    | .error e => .error e
    | .ok (k, v) => parseLoop recurse dec (dinsert k v acc) rest

/-- parse_fields (src/pyicloud/utils/photos.py lines 5-39). The fuel
parameter bounds the nesting depth of dict recursion, mirroring Python's
recursion limit; all theorems use enough fuel for their inputs. -/
def parse_fields (dec : Decoders) : Nat → List (String × PyVal) → Except String (List (String × PyVal))
  | 0 => fun _ => .error "RecursionError"
  | fuel + 1 => fun fields => parseLoop (parse_fields dec fuel) dec [] fields

/-- A CloudKit record as consumed by PhotoAlbum.fetch_records
(src/pyicloud/services/photos.py lines 434-439): only its recordType, its
own recordName, and (for CPLAsset records) the referenced master's
recordName, i.e. rec["fields"]["masterRef"]["value"]["recordName"]. -/
structure PRec where
  recordType : String
  recordName : String
  masterRef : String
deriving DecidableEq

/-- One iteration of the partition loop (lines 434-439): a CPLAsset record is
assigned into the asset_records dict under its masterRef, a CPLMaster record
is appended to master_records, anything else is ignored. -/
def partitionStep (acc : List (String × PRec) × List PRec) (r : PRec) :
    List (String × PRec) × List PRec :=
  if r.recordType = "CPLAsset" then (dinsert r.masterRef r acc.1, acc.2)
  else if r.recordType = "CPLMaster" then (acc.1, acc.2 ++ [r])
  else acc

/-- The partition of a page's records into the asset_records dict and the
master_records list (lines 432-439), in response order. -/
def partitionRecords (recs : List PRec) : List (String × PRec) × List PRec :=
  recs.foldl partitionStep ([], [])

/-- The yield loop of fetch_records (lines 448-453): each master record is
paired with asset_records[record_name]; a missing key raises KeyError
(modelled as an error carrying the missing record name). -/
def joinPage (assets : List (String × PRec)) : List PRec → Except String (List (PRec × PRec))
  | [] => .ok []
  | m :: ms =>
    match dget assets m.recordName with
    | Option.none => .error m.recordName
    | some a =>
      match joinPage assets ms with
      | .error e => .error e
      | .ok ps => .ok ((m, a) :: ps)

/-- The outcome of a fetch_records run over a scripted list of pages: the
yielded (master, asset) pairs, how many pages were fetched, and the final
cursor offset. -/
structure FetchOut where
  yields : List (PRec × PRec)
  pagesFetched : Nat
  finalOffset : Int
deriving DecidableEq

/-- PhotoAlbum.fetch_records (src/pyicloud/services/photos.py lines
414-455), embedded over a scripted sequence of query responses (pages).
The while loop checks total < limit before each fetch; a fetched page is
partitioned; if it has master records the offset moves by their count
(minus for DESCENDING, plus otherwise, lines 441-446) and every master is
joined with its asset record and yielded; a page with no master records
breaks the loop. An exhausted page script ends the run (model artifact:
the scripted executor has nothing more to return). -/
def fetch_records (direction : String) (limit : Nat) (pages : List (List PRec))
    (offset : Int) (total : Nat) : Except String FetchOut :=
  if total < limit then
    match pages with
    | [] => .ok ⟨[], 0, offset⟩
    | page :: rest =>
      let pr := partitionRecords page
      let n := pr.2.length
      if n ≠ 0 then
        let offset' := if direction = "DESCENDING" then offset - n else offset + n
        match joinPage pr.1 pr.2 with
        | .error e => .error e
        | .ok pairs =>
          match fetch_records direction limit rest offset' (total + n) with
          | .error e => .error e
          | .ok out => .ok ⟨pairs ++ out.yields, out.pagesFetched + 1, out.finalOffset⟩
      else .ok ⟨[], 1, offset⟩
  else .ok ⟨[], 0, offset⟩

/-- Number of master records in a page. -/
def masterCount (page : List PRec) : Nat := (partitionRecords page).2.length

/-- Total master records over a list of pages. -/
def sumMasters (pages : List (List PRec)) : Nat := (pages.map masterCount).sum

/-- Largest per-page master-record count. -/
def maxMasters (pages : List (List PRec)) : Nat :=
  (pages.map masterCount).foldr max 0

/-- The value member of a field envelope as read by PhotoAsset.versions:
either a scalar (width/height/file-type values) or the resolution envelope
with size and downloadURL members (lines 813-816). -/
inductive FV where
  | int (n : Int)
  | str (s : String)
  | res (size : Int) (downloadURL : String)
deriving DecidableEq

/-- PhotoAsset.ITEM_TYPES (src/pyicloud/services/photos.py lines 612-617). -/
def ITEM_TYPES : List (String × String) :=
  [("public.heic", "image"), ("public.jpeg", "image"), ("public.png", "image"),
   ("com.apple.quicktime-movie", "movie")]

/-- PhotoAsset.ITEM_TYPE_SUFFIX (lines 619-624). -/
def ITEM_TYPE_SUFFIX : List (String × String) :=
  [("public.heic", "HEIC"), ("public.jpeg", "JPEG"), ("public.png", "PNG"),
   ("com.apple.quicktime-movie", "MOV")]

/-- PhotoAsset.PHOTO_VERSION_LOOKUP (lines 626-635), in source order. -/
def PHOTO_VERSION_LOOKUP : List (String × String) :=
  [("full", "resJPEGFull"), ("large", "resJPEGLarge"), ("medium", "resJPEGMed"),
   ("thumb", "resJPEGThumb"), ("sidecar", "resSidecar"), ("original", "resOriginal"),
   ("original_alt", "resOriginalAlt"), ("live", "resOriginalVidCompl")]

/-- PhotoAsset.VIDEO_VERSION_LOOKUP (lines 637-643), in source order. -/
def VIDEO_VERSION_LOOKUP : List (String × String) :=
  [("full", "resVidFull"), ("medium", "resVidMed"), ("thumb", "resVidSmall"),
   ("original", "resOriginal"), ("original_compl", "resOriginalVidCompl")]

/-- PhotoAsset.item_type (lines 775-782): map the master record's itemType
tag through ITEM_TYPES; if unknown, inspect the (lowercased) filename
extension, defaulting to movie. -/
def item_type (tag : String) (filename : String) : String :=
  match dget ITEM_TYPES tag with
  | some t => t
  | Option.none =>
    if pyEndsWith (pyLower filename) ".heic" || pyEndsWith (pyLower filename) ".png"
        || pyEndsWith (pyLower filename) ".jpg" || pyEndsWith (pyLower filename) ".jpeg" then
      "image"
    else "movie"

/-- The version-descriptor dict built for one quality tier (lines 798-837). -/
structure VersionDesc where
  filename : String
  width : Option FV
  height : Option FV
  size : Option Int
  url : Option String
  filetype : Option FV
deriving DecidableEq

/-- Lines 826-832: replace the filename's extension with the suffix the
FileType tag maps to, keeping the original extension for unknown tags.
Mirrors `*base, suffix = self.filename.split(".")`. -/
def recomputeFilename (filename : String) (tv : FV) : String :=
  let parts := pySplit filename
  let base := String.intercalate "." parts.dropLast
  let sfx := match parts.getLast? with
    | some s => s
    | Option.none => ""
  let sfx := match tv with
    | .str s => (dget ITEM_TYPE_SUFFIX s).getD sfx
    | _ => sfx
  base ++ "." ++ sfx

/-- The body of the versions loop for one present tier (lines 798-837),
reading the record's fields. The size envelope must carry size and
downloadURL members (a differently shaped value raises, line 815). -/
def buildVersion (filename : String) (fields : List (String × FV)) (pfx : String) :
    Except String VersionDesc :=
  let width := dget fields (pfx ++ "Width")
  let height := dget fields (pfx ++ "Height")
  match dget fields (pfx ++ "Res") with
  | some (.res s u) =>
    (match dget fields (pfx ++ "FileType") with
     | some tv => .ok ⟨recomputeFilename filename tv, width, height, some s, some u, some tv⟩
     | Option.none => .ok ⟨filename, width, height, some s, some u, Option.none⟩)
  | some _ => .error "TypeError"
  | Option.none =>
    (match dget fields (pfx ++ "FileType") with
     | some tv => .ok ⟨recomputeFilename filename tv, width, height, Option.none, Option.none, some tv⟩
     | Option.none => .ok ⟨filename, width, height, Option.none, Option.none, Option.none⟩)

/-- One pass of the versions loop over a single record's fields (lines
795-837): for every tier of the lookup table whose size field is present,
build its descriptor and assign it into the accumulated dict. -/
def versionsPass (filename : String) (fields : List (String × FV))
    (acc : List (String × VersionDesc)) :
    List (String × String) → Except String (List (String × VersionDesc))
  | [] => .ok acc
  | (tier, pfx) :: rest =>
    if (dget fields (pfx ++ "Res")).isSome then
      match buildVersion filename fields pfx with
      | .error e => .error e
      | .ok v => versionsPass filename fields (dinsert tier v acc) rest
    else versionsPass filename fields acc rest

/-- The tier to field-name-stem table chosen by media kind (lines 789-792). -/
def versionTable (tag : String) (filename : String) : List (String × String) :=
  if item_type tag filename = "movie" then VIDEO_VERSION_LOOKUP else PHOTO_VERSION_LOOKUP

/-- PhotoAsset.versions (lines 784-839): iterate the master record's fields
first, then the asset record's fields, over the media-kind lookup table. -/
def versions (tag : String) (filename : String)
    (masterFields assetFields : List (String × FV)) :
    Except String (List (String × VersionDesc)) :=
  match versionsPass filename masterFields [] (versionTable tag filename) with
  | .error e => .error e
  | .ok acc => versionsPass filename assetFields acc (versionTable tag filename)

/-- The two parse attempts wrapped by the location and mediaMetaData
properties (src/pyicloud/services/photos.py lines 673-699):
parseB64 is BPListReader(base64.b64decode(value)).parse() and parseRaw is
the fallback BPListReader(value).parse(); each `except Exception` arm is an
error result. -/
structure LocDecoders where
  parseB64 : PyVal → Except String PyVal
  parseRaw : PyVal → Except String PyVal

/-- PhotoAsset.location (lines 673-683) and PhotoAsset.mediaMetaData (lines
685-699), which share this shape: if the Enc field's value is present and
truthy, try the base64 parse, then the raw parse, and degrade to None when
both raise. -/
def locationOf (ld : LocDecoders) (fieldValue : Option PyVal) : Option PyVal :=
  match fieldValue with
  | Option.none => Option.none
  | some v =>
    if truthy v then
      match ld.parseB64 v with
      | .ok d => some d
      | .error _ =>
        match ld.parseRaw v with
        | .ok d => some d
        | .error _ => Option.none
    else Option.none

/-- Python subscript d[k]: KeyError when the key is absent, TypeError when
the value is not a dict. -/
def pyGetItem (v : PyVal) (k : String) : Except String PyVal :=
  match v with
  | .dict d =>
    (match dget d k with
     | some w => .ok w
     | Option.none => .error "KeyError")
  | _ => .error "TypeError"

/-- Python subscript v[1] on a decoded sequence: IndexError when shorter
than two elements, TypeError on a non-sequence. -/
def pyIndex1 (v : PyVal) : Except String PyVal :=
  match v with
  | .tuple xs =>
    (match xs.get? 1 with
     | some w => .ok w
     | Option.none => .error "IndexError")
  | _ => .error "TypeError"

/-- Python d.get(k): AttributeError on a non-dict receiver. -/
def pyGet (v : PyVal) (k : String) : Except String (Option PyVal) :=
  match v with
  | .dict d => .ok (dget d k)
  | _ => .error "AttributeError"

/-- The metadata fallback shared by latitude and longitude (lines 708-713
and 723-728): when the decoded mediaMetaData is truthy and carries a truthy
GPS substructure, return entry[1] of its gpsKey entry if that entry is
truthy, else None; when the guard fails, fall through to None. -/
def coordFromMeta (md : LocDecoders) (metaField : Option PyVal) (gpsKey : String) :
    Except String (Option PyVal) :=
  match locationOf md metaField with
  | Option.none => .ok Option.none
  | some m =>
    if truthy m then
      match pyGet m "\x7bGPS\x7d" with
      | .error e => .error e
      | .ok og =>
        if (match og with
            | some g => truthy g
            | Option.none => false) then
          match pyGetItem m "\x7bGPS\x7d" with
          | .error e => .error e
          | .ok gps =>
            match pyGet gps gpsKey with
            | .error e => .error e
            | .ok (some c) =>
              if truthy c then
                (match pyIndex1 c with
                 | .error e => .error e
                 | .ok x => .ok (some x))
              else .ok Option.none
            | .ok Option.none => .ok Option.none
        else .ok Option.none
    else .ok Option.none

/-- PhotoAsset.latitude / PhotoAsset.longitude (lines 701-728), which are
textually parallel up to the key names: if the decoded location is truthy,
return location[locKey][1]; otherwise consult the metadata GPS fallback.
(The locationLatitude/locationLongitude field read at the top of each
property only feeds a print and never the result, so it is not modelled.) -/
def coordinate (ld md : LocDecoders) (locField metaField : Option PyVal)
    (locKey gpsKey : String) : Except String (Option PyVal) :=
  match locationOf ld locField with
  | some loc =>
    if truthy loc then
      match pyGetItem loc locKey with
      | .error e => .error e
      | .ok entry =>
        (match pyIndex1 entry with
         | .error e => .error e
         | .ok x => .ok (some x))
    else coordFromMeta md metaField gpsKey
  | Option.none => coordFromMeta md metaField gpsKey

/-- PhotoAsset.latitude (lines 701-713). -/
def latitude (ld md : LocDecoders) (locField metaField : Option PyVal) :
    Except String (Option PyVal) :=
  coordinate ld md locField metaField "lat" "Latitude"

/-- PhotoAsset.longitude (lines 715-728). -/
def longitude (ld md : LocDecoders) (locField metaField : Option PyVal) :
    Except String (Option PyVal) :=
  coordinate ld md locField metaField "lon" "Longitude"

/-- Concrete decoder set for which every binary-plist parse raises a
non-BadMagic error. -/
def decBoom : Decoders where
  b64 := fun _ => [0]
  bplist := fun _ => .error (.other "boom")
  utf8 := fun _ => Option.none
  utf16 := fun _ => Option.none

/-- Concrete decoder set that rejects the byte string [1] with BadMagic and
accepts anything else. -/
def decMagic : Decoders where
  b64 := fun _ => [1]
  bplist := fun bs => if bs = [1] then .error .badMagic else .ok (.int 7)
  utf8 := fun _ => Option.none
  utf16 := fun _ => Option.none

/-- Concrete decoder set for which every binary-plist parse succeeds with
the integer 3. -/
def decOK : Decoders where
  b64 := fun _ => [2]
  bplist := fun _ => .ok (.int 3)
  utf8 := fun _ => Option.none
  utf16 := fun _ => Option.none

/-- Whether the embedded Python code raised an exception. -/
def raised : Except String β → Bool
  | .error _ => true
  | .ok _ => false

def mW : PRec := ⟨"CPLMaster", "m1", ""⟩

def aW : PRec := ⟨"CPLAsset", "a1", "m1"⟩

/-- The observable part of a fetch_records run used by the pagination
claims: the number of yielded pairs and the number of pages fetched. -/
def fetchStats (r : Except String FetchOut) : Except String (Nat × Nat) :=
  match r with
  | .error e => .error e
  | .ok out => .ok (out.yields.length, out.pagesFetched)

def mFW : List (String × FV) := [("resOriginalRes", FV.res 10 "mu")]

def aFW : List (String × FV) := [("resOriginalRes", FV.res 20 "au")]

def outW : List (String × VersionDesc) :=
  [("original", ⟨"f.jpg", Option.none, Option.none, some 20, some "au", Option.none⟩)]

def ldW : LocDecoders where
  parseB64 := fun _ =>
    .ok (.dict [("lat", .tuple [.int 1, .int 42]), ("lon", .tuple [.int 1, .int 7])])
  parseRaw := fun _ => .error "x"

def mdW : LocDecoders where
  parseB64 := fun _ => .error "x"
  parseRaw := fun _ => .error "x"

theorem dget_dinsert_self (m : List (String × α)) (k : String) (v : α) :
    dget (dinsert k v m) k = some v := by
  induction m with
  | nil => simp [dinsert, dget]
  | cons p rest ih =>
    obtain ⟨k', w⟩ := p
    by_cases h : k' = k
    · simp [dinsert, dget, h]
    · simp [dinsert, dget, h, ih]

theorem dget_dinsert_ne (m : List (String × α)) (k k' : String) (v : α)
    (h : k' ≠ k) : dget (dinsert k v m) k' = dget m k' := by
  induction m with
  | nil => simp [dinsert, dget, Ne.symm h]
  | cons p rest ih =>
    obtain ⟨pk, pv⟩ := p
    by_cases hp : pk = k
    · subst hp
      simp [dinsert, dget, Ne.symm h]
    · simp [dinsert, dget, hp, ih]

/-- A run of the parse_fields loop over a prefix that completes without an
exception continues into the remaining entries from the accumulated dict. -/
theorem parseLoop_append_ok
    (recurse : List (String × PyVal) → Except String (List (String × PyVal)))
    (dec : Decoders) (pre : List (String × PyVal)) :
    ∀ acc acc', parseLoop recurse dec acc pre = .ok acc' →
      ∀ post, parseLoop recurse dec acc (pre ++ post) = parseLoop recurse dec acc' post := by
  induction pre with
  | nil =>
    intro acc acc' h post
    simp only [parseLoop] at h
    cases h
    rfl
  | cons p rest ih =>
    intro acc acc' h post
    obtain ⟨key, value⟩ := p
    cases hp : processEntry recurse dec key value with
    | error e =>
      simp only [parseLoop, hp] at h
      exact Except.noConfusion h
    | ok kv =>
      obtain ⟨k, v⟩ := kv
      simp only [List.cons_append, parseLoop, hp] at h ⊢
      exact ih _ _ h post

/-- C2 (amended): when a field whose key ends in Enc fails to decode with an
error other than BadMagic, parse_fields does NOT keep the raw bytes: the
except clause at src/pyicloud/utils/photos.py line 18 only catches
BadMagicException, so the error propagates out of parse_fields and the
remaining sibling fields are never processed. -/
theorem parse_fields_decode_error_escapes (dec : Decoders) (fuel : Nat)
    (pre post : List (String × PyVal)) (k : String) (v : PyVal) (msg : String)
    (acc' : List (String × PyVal))
    (hpre : parse_fields dec (fuel + 1) pre = .ok acc')
    (hk : pyEndsWith k "Enc" = true)
    (he : dec.bplist (dec.b64 (envUnwrap v)) = .error (.other msg)) :
    parse_fields dec (fuel + 1) (pre ++ (k, v) :: post) = .error msg := by
  have h0 : parseLoop (parse_fields dec fuel) dec [] pre = .ok acc' := hpre
  show parseLoop (parse_fields dec fuel) dec [] (pre ++ (k, v) :: post) = .error msg
  rw [parseLoop_append_ok (parse_fields dec fuel) dec pre [] acc' h0]
  simp only [parseLoop, processEntry, hk, if_true, he]

/-- C2 counterexample: a mapping with one valid sibling and one Enc field
whose decode fails with a non-BadMagic error makes parse_fields raise; it
does not return a mapping with the raw bytes kept. -/
theorem parse_fields_decode_error_cex :
    parse_fields decBoom 1 [("isFavorite", PyVal.int 1), ("captionEnc", PyVal.str "Zm9v")] =
      .error "boom" := rfl

/-- C2 witness. -/
theorem parse_fields_decode_error_escapes_witness :
    parse_fields decBoom 1 ([("isFavorite", PyVal.int 1)] ++ ("locationEnc", PyVal.str "AA") :: []) =
      .error "boom" :=
  parse_fields_decode_error_escapes decBoom 0 [("isFavorite", PyVal.int 1)] []
    "locationEnc" (PyVal.str "AA") "boom" [("isFavorite", PyVal.int 1)] rfl rfl rfl

/-- C3 (amended): when the binary-plist parse of an Enc field raises
BadMagicException, parse_fields keeps the base64-decoded bytes themselves
(line 19), subject only to the later generic UTF-8/UTF-16 text-decode
attempt; it does not feed anything back to the binary-plist reader. -/
theorem parse_fields_badmagic_keeps_bytes (dec : Decoders) (fuel : Nat)
    (k : String) (v : PyVal) (rest acc : List (String × PyVal))
    (hk : pyEndsWith k "Enc" = true)
    (he : dec.bplist (dec.b64 (envUnwrap v)) = .error .badMagic) :
    parseLoop (parse_fields dec fuel) dec acc ((k, v) :: rest) =
      parseLoop (parse_fields dec fuel) dec
        (dinsert (replaceEnc k) (textDecode dec (dec.b64 (envUnwrap v))) acc) rest := by
  simp only [parseLoop, processEntry, hk, if_true, he]

/-- C3 counterexample: on BadMagic the resulting field value is the raw
base64-decoded byte string [1] itself, even though the binary-plist decoder
rejects [1] (so the value cannot be any decoder output) while it would
happily decode other inputs. -/
theorem parse_fields_badmagic_cex :
    parse_fields decMagic 1 [("mediaMetaDataEnc", PyVal.str "eA==")] =
        .ok [("mediaMetaData", PyVal.bytes [1])] ∧
      decMagic.bplist [1] = .error DecodeError.badMagic ∧
      decMagic.bplist [9] = .ok (PyVal.int 7) ∧
      PyVal.bytes [1] ≠ PyVal.int 7 :=
  ⟨rfl, rfl, rfl, fun h => PyVal.noConfusion h⟩

/-- C3 witness. -/
theorem parse_fields_badmagic_keeps_bytes_witness :
    parseLoop (parse_fields decMagic 0) decMagic [] (("locationEnc", PyVal.str "eA==") :: []) =
      parseLoop (parse_fields decMagic 0) decMagic
        (dinsert (replaceEnc "locationEnc")
          (textDecode decMagic (decMagic.b64 (envUnwrap (PyVal.str "eA==")))) []) [] :=
  parse_fields_badmagic_keeps_bytes decMagic 0 "locationEnc" (PyVal.str "eA==") [] [] rfl rfl

/-- The loop body stores an Enc-suffixed field under key.replace("Enc", ""),
whatever the decoded value turned out to be. -/
theorem processEntry_fst_enc
    (recurse : List (String × PyVal) → Except String (List (String × PyVal)))
    (dec : Decoders) (key : String) (value : PyVal) (out : String × PyVal)
    (hk : pyEndsWith key "Enc" = true)
    (hp : processEntry recurse dec key value = .ok out) :
    out.1 = replaceEnc key := by
  simp only [processEntry, hk, if_true] at hp
  cases hb : dec.bplist (dec.b64 (envUnwrap value)) with
  | ok w =>
    simp only [hb] at hp
    cases w with
    | dict d =>
      cases hr : recurse d with
      | error e =>
        simp only [hr] at hp
        exact Except.noConfusion hp
      | ok parsed =>
        simp only [hr] at hp
        cases hp
        rfl
    | none => cases hp; rfl
    | bool b => cases hp; rfl
    | int n => cases hp; rfl
    | str s => cases hp; rfl
    | bytes bs => cases hp; rfl
    | tuple xs => cases hp; rfl
  | error err =>
    cases err with
    | badMagic =>
      simp only [hb] at hp
      cases hp
      rfl
    | other e =>
      simp only [hb] at hp
      exact Except.noConfusion hp

/-- C4 (amended): for a key ending in Enc, the output key of parse_fields is
the input key with EVERY occurrence of the substring Enc removed
(key.replace("Enc", ""), line 20), which coincides with stripping the
trailing suffix exactly when that suffix is the only occurrence; in
particular filenameEnc still yields filename. -/
theorem parse_fields_enc_key_replace_all :
    (∀ (recurse : List (String × PyVal) → Except String (List (String × PyVal)))
       (dec : Decoders) (k : String) (v : PyVal) (out : String × PyVal),
       pyEndsWith k "Enc" = true → processEntry recurse dec k v = .ok out →
       out.1 = replaceEnc k) ∧
    (∀ (dec : Decoders) (fuel : Nat) (k : String) (v : PyVal)
       (out : List (String × PyVal)),
       pyEndsWith k "Enc" = true → parse_fields dec (fuel + 1) [(k, v)] = .ok out →
       (out.map Prod.fst) = [replaceEnc k]) ∧
    replaceEnc "filenameEnc" = "filename" := by
  refine ⟨fun recurse dec k v out hk hp => processEntry_fst_enc recurse dec k v out hk hp,
    fun dec fuel k v out hk hp => ?_, rfl⟩
  have h0 : parseLoop (parse_fields dec fuel) dec [] [(k, v)] = .ok out := hp
  cases hpe : processEntry (parse_fields dec fuel) dec k v with
  | error e =>
    simp only [parseLoop, hpe] at h0
    exact Except.noConfusion h0
  | ok kv =>
    obtain ⟨k1, v1⟩ := kv
    simp only [parseLoop, hpe, dinsert] at h0
    cases h0
    have hfst : (k1, v1).1 = replaceEnc k :=
      processEntry_fst_enc (parse_fields dec fuel) dec k v (k1, v1) hk hpe
    simp only [List.map_cons, List.map_nil]
    rw [show k1 = replaceEnc k from hfst]

/-- C4 counterexample: the key aEncbEnc ends with the Enc suffix, yet its
output key is ab (every occurrence removed), not the aEncb that stripping
only the trailing suffix would give. -/
theorem parse_fields_enc_key_cex :
    parse_fields decOK 1 [("aEncbEnc", PyVal.str "eA==")] = .ok [("ab", PyVal.int 3)] ∧
      "ab" ≠ "aEncb" :=
  ⟨rfl, by decide⟩

/-- C4 witness. -/
theorem parse_fields_enc_key_replace_all_witness :
    ("filename", PyVal.int 3).1 = replaceEnc "filenameEnc" :=
  parse_fields_enc_key_replace_all.1 (parse_fields decOK 0) decOK "filenameEnc"
    (PyVal.str "eA==") ("filename", PyVal.int 3) rfl rfl

theorem joinPage_length (assets : List (String × PRec)) :
    ∀ ms ps, joinPage assets ms = .ok ps → ps.length = ms.length := by
  intro ms
  induction ms with
  | nil =>
    intro ps h
    simp only [joinPage] at h
    cases h
    rfl
  | cons m rest ih =>
    intro ps h
    cases hd : dget assets m.recordName with
    | none =>
      simp only [joinPage, hd] at h
      exact Except.noConfusion h
    | some a =>
      cases hj : joinPage assets rest with
      | error e =>
        simp only [joinPage, hd, hj] at h
        exact Except.noConfusion h
      | ok qs =>
        simp only [joinPage, hd, hj] at h
        cases h
        simp [ih qs hj]

theorem joinPage_error_of_unpaired (assets : List (String × PRec)) :
    ∀ ms : List PRec, (∃ m ∈ ms, dget assets m.recordName = Option.none) →
      ∃ e, joinPage assets ms = .error e := by
  intro ms
  induction ms with
  | nil =>
    rintro ⟨m, hm, _⟩
    simp at hm
  | cons m0 rest ih =>
    rintro ⟨m, hm, hu⟩
    cases hd : dget assets m0.recordName with
    | none => exact ⟨m0.recordName, by simp [joinPage, hd]⟩
    | some a =>
      rcases List.mem_cons.mp hm with h0 | hr
      · subst h0
        rw [hd] at hu
        exact Option.noConfusion hu
      · obtain ⟨e, he⟩ := ih ⟨m, hr, hu⟩
        exact ⟨e, by simp [joinPage, hd, he]⟩

/-- C1 (amended): a master record whose own record identifier has no
asset-record counterpart in the page's partition map is NOT skipped:
asset_records[record_name] at src/pyicloud/services/photos.py line 452
raises KeyError, aborting the generator. -/
theorem fetch_records_unpaired_master_raises (direction : String) (limit : Nat)
    (page : List PRec) (rest : List (List PRec)) (offset : Int) (total : Nat) (m : PRec)
    (hl : total < limit)
    (hm : m ∈ (partitionRecords page).2)
    (hu : dget (partitionRecords page).1 m.recordName = Option.none) :
    raised (fetch_records direction limit (page :: rest) offset total) = true := by
  obtain ⟨e, he⟩ :=
    joinPage_error_of_unpaired (partitionRecords page).1 (partitionRecords page).2 ⟨m, hm, hu⟩
  have hn : (partitionRecords page).2.length ≠ 0 := by
    intro h0
    rw [List.length_eq_zero] at h0
    rw [h0] at hm
    simp at hm
  unfold fetch_records
  simp [hl, hn, he, raised]

/-- C1 counterexample: a page holding a single CPLMaster record and no
CPLAsset records makes fetch_records raise KeyError (carrying the missing
record name) instead of skipping the master and yielding nothing. -/
theorem fetch_records_unpaired_master_cex :
    fetch_records "ASCENDING" 7 [[⟨"CPLMaster", "m1", "r"⟩]] 0 0 = .error "m1" := rfl

/-- C1 witness. -/
theorem fetch_records_unpaired_master_raises_witness :
    raised (fetch_records "ASCENDING" 5 [[⟨"CPLMaster", "m2", "r"⟩]] 0 0) = true :=
  fetch_records_unpaired_master_raises "ASCENDING" 5 [⟨"CPLMaster", "m2", "r"⟩] [] 0 0
    ⟨"CPLMaster", "m2", "r"⟩ (by decide) (by decide) rfl

theorem partitionStep_snd_le (acc : List (String × PRec) × List PRec) (r : PRec) :
    (partitionStep acc r).2.length ≤ acc.2.length + 1 := by
  unfold partitionStep
  by_cases h1 : r.recordType = "CPLAsset"
  · simp [h1]
  · by_cases h2 : r.recordType = "CPLMaster"
    · simp [h1, h2]
    · simp [h1, h2]

theorem partitionStep_snd_eq_of_nonmaster (acc : List (String × PRec) × List PRec)
    (r : PRec) (h : r.recordType ≠ "CPLMaster") : (partitionStep acc r).2 = acc.2 := by
  unfold partitionStep
  by_cases h1 : r.recordType = "CPLAsset"
  · simp [h1]
  · simp [h1, h]

theorem foldl_partition_le (page : List PRec) :
    ∀ acc : List (String × PRec) × List PRec,
      (page.foldl partitionStep acc).2.length ≤ acc.2.length + page.length := by
  induction page with
  | nil => intro acc; simp
  | cons r rest ih =>
    intro acc
    have h1 := partitionStep_snd_le acc r
    have h2 := ih (partitionStep acc r)
    simp only [List.foldl_cons, List.length_cons]
    omega

theorem foldl_partition_lt (r : PRec) (hne : r.recordType ≠ "CPLMaster") :
    ∀ page : List PRec, r ∈ page →
      ∀ acc : List (String × PRec) × List PRec,
        (page.foldl partitionStep acc).2.length < acc.2.length + page.length := by
  intro page
  induction page with
  | nil => intro h; simp at h
  | cons x rest ih =>
    intro hmem acc
    rcases List.mem_cons.mp hmem with hx | hr
    · subst hx
      have heq := partitionStep_snd_eq_of_nonmaster acc r hne
      have h2 := foldl_partition_le rest (partitionStep acc r)
      simp only [List.foldl_cons, List.length_cons]
      rw [heq] at h2
      omega
    · have h1 := partitionStep_snd_le acc x
      have h2 := ih hr (partitionStep acc x)
      simp only [List.foldl_cons, List.length_cons]
      omega

theorem fetch_offset_by_yields (direction : String) (limit : Nat) :
    ∀ (pages : List (List PRec)) (offset : Int) (total : Nat) (out : FetchOut),
      fetch_records direction limit pages offset total = .ok out →
      out.finalOffset =
        if direction = "DESCENDING" then offset - out.yields.length
        else offset + out.yields.length := by
  intro pages
  induction pages with
  | nil =>
    intro offset total out h
    simp only [fetch_records] at h
    by_cases hl : total < limit
    · rw [if_pos hl] at h
      cases h
      split <;> simp
    · rw [if_neg hl] at h
      cases h
      split <;> simp
  | cons page rest ih =>
    intro offset total out h
    simp only [fetch_records] at h
    by_cases hl : total < limit
    case neg =>
      rw [if_neg hl] at h
      cases h
      split <;> simp
    case pos =>
      rw [if_pos hl] at h
      by_cases hn : (partitionRecords page).2.length ≠ 0
      case neg =>
        rw [if_neg hn] at h
        cases h
        split <;> simp
      case pos =>
        rw [if_pos hn] at h
        cases hj : joinPage (partitionRecords page).1 (partitionRecords page).2 with
        | error e =>
          rw [hj] at h
          exact Except.noConfusion h
        | ok pairs =>
          rw [hj] at h
          cases hrec : fetch_records direction limit rest
              (if direction = "DESCENDING"
                then offset - (partitionRecords page).2.length
                else offset + (partitionRecords page).2.length)
              (total + (partitionRecords page).2.length) with
          | error e =>
            rw [hrec] at h
            exact Except.noConfusion h
          | ok out' =>
            rw [hrec] at h
            cases h
            have hih := ih _ _ out' hrec
            have hlen := joinPage_length (partitionRecords page).1 (partitionRecords page).2 pairs hj
            by_cases hd : direction = "DESCENDING"
            · simp only [hd, if_pos, if_true] at hih ⊢
              simp only [List.length_append, hlen]
              push_cast
              omega
            · simp only [hd, if_false] at hih ⊢
              simp only [List.length_append, hlen]
              push_cast
              omega

theorem fetch_page_step (direction : String) (limit : Nat) (page : List PRec)
    (rest : List (List PRec)) (offset : Int) (total : Nat) (pairs : List (PRec × PRec))
    (hl : total < limit)
    (hn : (partitionRecords page).2.length ≠ 0)
    (hj : joinPage (partitionRecords page).1 (partitionRecords page).2 = .ok pairs) :
    fetch_records direction limit (page :: rest) offset total =
      (fetch_records direction limit rest
        (if direction = "DESCENDING"
          then offset - (partitionRecords page).2.length
          else offset + (partitionRecords page).2.length)
        (total + (partitionRecords page).2.length)).map
        (fun out => ⟨pairs ++ out.yields, out.pagesFetched + 1, out.finalOffset⟩) := by
  conv_lhs => rw [fetch_records]
  rw [if_pos hl, if_pos hn, hj]
  cases hrec : fetch_records direction limit rest
      (if direction = "DESCENDING"
        then offset - (partitionRecords page).2.length
        else offset + (partitionRecords page).2.length)
      (total + (partitionRecords page).2.length) with
  | error e => simp [Except.map, hrec]
  | ok out' => simp [Except.map, hrec]

/-- C5: after a page with at least one master record, the cursor offset
moves by exactly the number of master records in the page (subtracted for
DESCENDING, added otherwise): (a) over a whole successful run the final
offset differs from the start by the total yielded-pair count in the
cursor's direction, (b) the offset handed to the continuation after one
page is the incoming offset plus/minus that page's master-record count, and
(c) a page holding any non-master record has a master count strictly below
its raw record count, so the offset never advances by the raw/unjoined
response size. -/
theorem fetch_records_offset_advance :
    (∀ (direction : String) (limit : Nat) (pages : List (List PRec)) (offset : Int)
       (total : Nat) (out : FetchOut),
       fetch_records direction limit pages offset total = .ok out →
       out.finalOffset =
         if direction = "DESCENDING" then offset - out.yields.length
         else offset + out.yields.length) ∧
    (∀ (direction : String) (limit : Nat) (page : List PRec) (rest : List (List PRec))
       (offset : Int) (total : Nat) (pairs : List (PRec × PRec)),
       total < limit → masterCount page ≠ 0 →
       joinPage (partitionRecords page).1 (partitionRecords page).2 = .ok pairs →
       fetch_records direction limit (page :: rest) offset total =
         (fetch_records direction limit rest
           (if direction = "DESCENDING"
             then offset - (masterCount page : Int)
             else offset + (masterCount page : Int))
           (total + masterCount page)).map
           (fun out => ⟨pairs ++ out.yields, out.pagesFetched + 1, out.finalOffset⟩)) ∧
    (∀ (page : List PRec) (r : PRec), r ∈ page → r.recordType ≠ "CPLMaster" →
       masterCount page < page.length) :=
  ⟨fetch_offset_by_yields,
   fun direction limit page rest offset total pairs hl hn hj =>
     fetch_page_step direction limit page rest offset total pairs hl hn hj,
   fun page r hr hne => by
     have := foldl_partition_lt r hne page hr ([], [])
     simpa [masterCount, partitionRecords] using this⟩

/-- C5 witness. -/
theorem fetch_records_offset_advance_witness :
    FetchOut.finalOffset ⟨[(mW, aW)], 2, 6⟩ =
      if "ASCENDING" = "DESCENDING"
        then (5 : Int) - (([(mW, aW)] : List (PRec × PRec)).length : Int)
        else (5 : Int) + (([(mW, aW)] : List (PRec × PRec)).length : Int) :=
  fetch_records_offset_advance.1 "ASCENDING" 9 [[aW, mW], []] 5 0 ⟨[(mW, aW)], 2, 6⟩ rfl

theorem fetch_front_sum (direction : String) (limit : Nat) (zpage : List PRec)
    (back : List (List PRec)) (hz : masterCount zpage = 0) :
    ∀ (front : List (List PRec)) (offset : Int) (total : Nat),
      (∀ p ∈ front, masterCount p ≠ 0 ∧
        ∃ ps, joinPage (partitionRecords p).1 (partitionRecords p).2 = .ok ps) →
      total + sumMasters front < limit →
      fetchStats (fetch_records direction limit (front ++ zpage :: back) offset total) =
        .ok (sumMasters front, front.length + 1) := by
  intro front
  induction front with
  | nil =>
    intro offset total hf hlim
    have hl : total < limit := by simpa [sumMasters] using hlim
    have hz' : ¬ ((partitionRecords zpage).2.length ≠ 0) := by
      simpa [masterCount] using hz
    simp only [List.nil_append, fetch_records, if_pos hl]
    rw [if_neg hz']
    simp [fetchStats, sumMasters]
  | cons p front' ih =>
    intro offset total hf hlim
    obtain ⟨hn, ps, hj⟩ := hf p (by simp)
    have hsum : sumMasters (p :: front') = masterCount p + sumMasters front' := by
      simp [sumMasters]
    have hl : total < limit := by
      have h1 : 1 ≤ masterCount p := Nat.one_le_iff_ne_zero.mpr hn
      omega
    have hlim' : (total + (partitionRecords p).2.length) + sumMasters front' < limit := by
      have : (partitionRecords p).2.length = masterCount p := rfl
      omega
    have hih := ih
      (if direction = "DESCENDING"
        then offset - (partitionRecords p).2.length
        else offset + (partitionRecords p).2.length)
      (total + (partitionRecords p).2.length)
      (fun q hq => hf q (by simp [hq])) hlim'
    simp only [List.cons_append, fetch_records, if_pos hl]
    rw [if_pos (show (partitionRecords p).2.length ≠ 0 from hn), hj]
    cases hrec : fetch_records direction limit (front' ++ zpage :: back)
        (if direction = "DESCENDING"
          then offset - (partitionRecords p).2.length
          else offset + (partitionRecords p).2.length)
        (total + (partitionRecords p).2.length) with
    | error e =>
      rw [hrec] at hih
      exact Except.noConfusion hih
    | ok out' =>
      rw [hrec] at hih
      simp only [fetchStats] at hih
      have hcomp : out'.yields.length = sumMasters front' ∧
          out'.pagesFetched = front'.length + 1 := by
        have := hih
        injection this with h1
        exact ⟨congrArg Prod.fst h1, congrArg Prod.snd h1⟩
      have hlen := joinPage_length (partitionRecords p).1 (partitionRecords p).2 ps hj
      simp only [fetchStats, List.length_append, hcomp.1, hcomp.2, hsum]
      have : ps.length = masterCount p := hlen
      rw [this]
      simp [List.length_cons]

/-- C6 (amended): provided the limit is not exhausted first (the sum of
joined pairs over the pages before the first zero-master page stays below
the limit), the stream halts at the first zero-master page: it fetches
exactly front.length + 1 pages (never touching the pages scripted after the
empty one), a nonzero-but-small page does not stop it, and the number of
yielded assets is exactly the sum of joined pairs over the preceding pages.
When the limit is reached earlier, the stream instead stops at the page
that reached it (see the counterexample). -/
theorem fetch_records_termination_sum (direction : String) (limit : Nat)
    (front : List (List PRec)) (zpage : List PRec) (back : List (List PRec))
    (offset : Int)
    (hf : ∀ p ∈ front, masterCount p ≠ 0 ∧
      ∃ ps, joinPage (partitionRecords p).1 (partitionRecords p).2 = .ok ps)
    (hz : masterCount zpage = 0)
    (hlim : sumMasters front < limit) :
    fetchStats (fetch_records direction limit (front ++ zpage :: back) offset 0) =
      .ok (sumMasters front, front.length + 1) :=
  fetch_front_sum direction limit zpage back hz front offset 0 hf (by omega)

/-- C6 counterexample: with limit 1 and pages of 2, 2 and 0 joined pairs,
fetch_records stops after the first page with 2 yields and 1 fetched page,
not at the zero-master third page with 4 yields. -/
theorem fetch_records_termination_cex :
    fetchStats (fetch_records "ASCENDING" 1
        [[⟨"CPLAsset", "a1", "m1"⟩, ⟨"CPLMaster", "m1", ""⟩,
          ⟨"CPLAsset", "a2", "m2"⟩, ⟨"CPLMaster", "m2", ""⟩],
         [⟨"CPLAsset", "a3", "m3"⟩, ⟨"CPLMaster", "m3", ""⟩,
          ⟨"CPLAsset", "a4", "m4"⟩, ⟨"CPLMaster", "m4", ""⟩],
         []] 0 0) = .ok (2, 1) ∧
      ((2 : Nat), (1 : Nat)) ≠ ((4 : Nat), (3 : Nat)) :=
  ⟨rfl, by decide⟩

/-- C6 witness. -/
theorem fetch_records_termination_sum_witness :
    fetchStats (fetch_records "ASCENDING" 2 [[aW, mW], []] 0 0) = .ok (1, 2) :=
  fetch_records_termination_sum "ASCENDING" 2 [[aW, mW]] [] [] 0
    (fun p hp => by
      rcases List.mem_singleton.mp hp with rfl
      exact ⟨by decide, ⟨[(mW, aW)], rfl⟩⟩)
    rfl (by decide)

theorem fetch_stops_at_limit (direction : String) (limit : Nat)
    (pages : List (List PRec)) (offset : Int) (total : Nat) (h : limit ≤ total) :
    fetch_records direction limit pages offset total = .ok ⟨[], 0, offset⟩ := by
  have hl : ¬ total < limit := by omega
  cases pages <;> simp [fetch_records, hl]

theorem fetch_yields_take (direction : String) (limit : Nat) :
    ∀ (pages : List (List PRec)) (offset : Int) (total : Nat) (out : FetchOut),
      fetch_records direction limit pages offset total = .ok out →
      out.yields.length = sumMasters (pages.take out.pagesFetched) := by
  intro pages
  induction pages with
  | nil =>
    intro offset total out h
    simp only [fetch_records] at h
    by_cases hl : total < limit
    · rw [if_pos hl] at h
      cases h
      simp [sumMasters]
    · rw [if_neg hl] at h
      cases h
      simp [sumMasters]
  | cons page rest ih =>
    intro offset total out h
    simp only [fetch_records] at h
    by_cases hl : total < limit
    case neg =>
      rw [if_neg hl] at h
      cases h
      simp [sumMasters]
    case pos =>
      rw [if_pos hl] at h
      by_cases hn : (partitionRecords page).2.length ≠ 0
      case neg =>
        rw [if_neg hn] at h
        cases h
        push_neg at hn
        simp [sumMasters, masterCount, hn]
      case pos =>
        rw [if_pos hn] at h
        cases hj : joinPage (partitionRecords page).1 (partitionRecords page).2 with
        | error e =>
          rw [hj] at h
          exact Except.noConfusion h
        | ok pairs =>
          rw [hj] at h
          cases hrec : fetch_records direction limit rest
              (if direction = "DESCENDING"
                then offset - (partitionRecords page).2.length
                else offset + (partitionRecords page).2.length)
              (total + (partitionRecords page).2.length) with
          | error e =>
            rw [hrec] at h
            exact Except.noConfusion h
          | ok out' =>
            rw [hrec] at h
            cases h
            have hih := ih _ _ out' hrec
            have hlen := joinPage_length (partitionRecords page).1 (partitionRecords page).2 pairs hj
            simp only [List.take_succ_cons, List.length_append, hih, hlen]
            simp [sumMasters, masterCount]

theorem maxMasters_cons (p : List PRec) (pages : List (List PRec)) :
    maxMasters (p :: pages) = max (masterCount p) (maxMasters pages) := by
  simp [maxMasters]

theorem fetch_yields_bound (direction : String) (limit : Nat) :
    ∀ (pages : List (List PRec)) (offset : Int) (total : Nat) (out : FetchOut),
      total < limit →
      fetch_records direction limit pages offset total = .ok out →
      total + out.yields.length < limit + maxMasters pages := by
  intro pages
  induction pages with
  | nil =>
    intro offset total out hl h
    simp only [fetch_records, if_pos hl] at h
    cases h
    simp only [List.length_nil]
    omega
  | cons page rest ih =>
    intro offset total out hl h
    simp only [fetch_records, if_pos hl] at h
    by_cases hn : (partitionRecords page).2.length ≠ 0
    case neg =>
      rw [if_neg hn] at h
      cases h
      simp only [List.length_nil]
      omega
    case pos =>
      rw [if_pos hn] at h
      cases hj : joinPage (partitionRecords page).1 (partitionRecords page).2 with
      | error e =>
        rw [hj] at h
        exact Except.noConfusion h
      | ok pairs =>
        rw [hj] at h
        cases hrec : fetch_records direction limit rest
            (if direction = "DESCENDING"
              then offset - (partitionRecords page).2.length
              else offset + (partitionRecords page).2.length)
            (total + (partitionRecords page).2.length) with
        | error e =>
          rw [hrec] at h
          exact Except.noConfusion h
        | ok out' =>
          rw [hrec] at h
          cases h
          have hlen := joinPage_length (partitionRecords page).1 (partitionRecords page).2 pairs hj
          have hmax1 : masterCount page ≤ maxMasters (page :: rest) := by
            rw [maxMasters_cons]
            exact le_max_left _ _
          have hmax2 : maxMasters rest ≤ maxMasters (page :: rest) := by
            rw [maxMasters_cons]
            exact le_max_right _ _
          simp only [masterCount] at hmax1
          by_cases hl2 : total + (partitionRecords page).2.length < limit
          · have hb := ih _ _ out' hl2 hrec
            simp only [List.length_append]
            omega
          · have hle : limit ≤ total + (partitionRecords page).2.length := by omega
            have hstop := fetch_stops_at_limit direction limit rest
              (if direction = "DESCENDING"
                then offset - (partitionRecords page).2.length
                else offset + (partitionRecords page).2.length)
              (total + (partitionRecords page).2.length) hle
            rw [hstop] at hrec
            cases hrec
            simp only [List.length_append, List.length_nil]
            omega

/-- C10: the limit of fetch_records is only consulted before a page fetch:
(a) once the running total has reached the limit no further page is fetched
(zero pages, nothing yielded), (b) every joined pair of every fetched page
is yielded — the yield count is exactly the master-record sum of the pages
actually fetched — and (c) consequently a call with a positive limit can
overshoot the limit by less than one page's master-record count. -/
theorem fetch_records_limit_check :
    (∀ (direction : String) (limit : Nat) (pages : List (List PRec)) (offset : Int)
       (total : Nat), limit ≤ total →
       fetch_records direction limit pages offset total = .ok ⟨[], 0, offset⟩) ∧
    (∀ (direction : String) (limit : Nat) (pages : List (List PRec)) (offset : Int)
       (total : Nat) (out : FetchOut),
       fetch_records direction limit pages offset total = .ok out →
       out.yields.length = sumMasters (pages.take out.pagesFetched)) ∧
    (∀ (direction : String) (limit : Nat) (pages : List (List PRec)) (offset : Int)
       (out : FetchOut), 0 < limit →
       fetch_records direction limit pages offset 0 = .ok out →
       out.yields.length < limit + maxMasters pages) :=
  ⟨fun d l p o t h => fetch_stops_at_limit d l p o t h,
   fun d l => fetch_yields_take d l,
   fun d l pages o out h0 h => by
     have := fetch_yields_bound d l pages o 0 out h0 h
     omega⟩

/-- C10 witness. -/
theorem fetch_records_limit_check_witness :
    fetch_records "ASCENDING" 3 [[mW]] 5 7 = .ok ⟨[], 0, 5⟩ :=
  fetch_records_limit_check.1 "ASCENDING" 3 [[mW]] 5 7 (by decide)

theorem versionsPass_skip (filename : String) (fields : List (String × FV)) (tier : String) :
    ∀ (table : List (String × String)) (acc out : List (String × VersionDesc)),
      tier ∉ table.map Prod.fst →
      versionsPass filename fields acc table = .ok out →
      dget out tier = dget acc tier := by
  intro table
  induction table with
  | nil =>
    intro acc out _ h
    simp only [versionsPass] at h
    cases h
    rfl
  | cons tp rest ih =>
    intro acc out hmem h
    obtain ⟨t0, p0⟩ := tp
    simp only [List.map_cons, List.mem_cons] at hmem
    push_neg at hmem
    obtain ⟨hne, hnm⟩ := hmem
    simp only [versionsPass] at h
    by_cases hg : (dget fields (p0 ++ "Res")).isSome = true
    · rw [if_pos hg] at h
      cases hb : buildVersion filename fields p0 with
      | error e =>
        rw [hb] at h
        exact Except.noConfusion h
      | ok v =>
        rw [hb] at h
        rw [ih (dinsert t0 v acc) out hnm h, dget_dinsert_ne acc t0 tier v hne]
    · rw [if_neg hg] at h
      exact ih acc out hnm h

theorem versionsPass_hit (filename : String) (fields : List (String × FV))
    (tier pfx : String) :
    ∀ (table : List (String × String)) (acc out : List (String × VersionDesc)),
      (table.map Prod.fst).Nodup →
      (tier, pfx) ∈ table →
      (dget fields (pfx ++ "Res")).isSome = true →
      versionsPass filename fields acc table = .ok out →
      ∃ v, buildVersion filename fields pfx = .ok v ∧ dget out tier = some v := by
  intro table
  induction table with
  | nil =>
    intro acc out _ hmem _ _
    simp at hmem
  | cons tp rest ih =>
    intro acc out hnd hmem hg h
    obtain ⟨t0, p0⟩ := tp
    simp only [List.map_cons, List.nodup_cons] at hnd
    obtain ⟨hn0, hnd'⟩ := hnd
    rcases List.mem_cons.mp hmem with he | hr
    · injection he with h1 h2
      subst h1
      subst h2
      simp only [versionsPass] at h
      rw [if_pos hg] at h
      cases hb : buildVersion filename fields pfx with
      | error e =>
        rw [hb] at h
        exact Except.noConfusion h
      | ok v =>
        rw [hb] at h
        refine ⟨v, rfl, ?_⟩
        rw [versionsPass_skip filename fields tier rest (dinsert tier v acc) out hn0 h,
          dget_dinsert_self]
    · simp only [versionsPass] at h
      by_cases hg0 : (dget fields (p0 ++ "Res")).isSome = true
      · rw [if_pos hg0] at h
        cases hb : buildVersion filename fields p0 with
        | error e =>
          rw [hb] at h
          exact Except.noConfusion h
        | ok v0 =>
          rw [hb] at h
          exact ih (dinsert t0 v0 acc) out hnd' hr hg h
      · rw [if_neg hg0] at h
        exact ih acc out hnd' hr hg h

/-- C7: for a quality tier whose size field is present in both the master
record's and the asset record's fields, the descriptor stored under that
tier by PhotoAsset.versions is the one built from the asset record's
fields: the asset pass runs second (line 795) and its dict assignment
overwrites the master-built entry. -/
theorem versions_asset_overrides_master (tag filename : String)
    (mF aF : List (String × FV)) (tier pfx : String)
    (out : List (String × VersionDesc))
    (ht : (tier, pfx) ∈ versionTable tag filename)
    (_hm : (dget mF (pfx ++ "Res")).isSome = true)
    (ha : (dget aF (pfx ++ "Res")).isSome = true)
    (hout : versions tag filename mF aF = .ok out) :
    dget out tier = (buildVersion filename aF pfx).toOption := by
  have hnd : ((versionTable tag filename).map Prod.fst).Nodup := by
    unfold versionTable
    split
    · decide
    · decide
  simp only [versions] at hout
  cases h1 : versionsPass filename mF [] (versionTable tag filename) with
  | error e =>
    rw [h1] at hout
    exact Except.noConfusion hout
  | ok acc =>
    rw [h1] at hout
    obtain ⟨v, hb, hdg⟩ :=
      versionsPass_hit filename aF tier pfx (versionTable tag filename) acc out hnd ht ha hout
    rw [hdg, hb]
    rfl

/-- C7 witness. -/
theorem versions_asset_overrides_master_witness :
    dget outW "original" = (buildVersion "f.jpg" aFW "resOriginal").toOption :=
  versions_asset_overrides_master "public.jpeg" "f.jpg" mFW aFW "original" "resOriginal" outW
    (by decide) rfl rfl rfl

/-- C8: PhotoAsset.item_type maps the master record's itemType tag through
the fixed ITEM_TYPES table; when the tag is not in the table, it returns
image exactly when the lowercased filename ends with .heic, .png, .jpg or
.jpeg, and movie otherwise. -/
theorem item_type_spec :
    (∀ (tag filename kind : String), dget ITEM_TYPES tag = some kind →
       item_type tag filename = kind) ∧
    (∀ (tag filename : String), dget ITEM_TYPES tag = Option.none →
      ((item_type tag filename = "image" ↔
         (pyEndsWith (pyLower filename) ".heic" = true ∨
          pyEndsWith (pyLower filename) ".png" = true ∨
          pyEndsWith (pyLower filename) ".jpg" = true ∨
          pyEndsWith (pyLower filename) ".jpeg" = true)) ∧
       (item_type tag filename = "movie" ↔
         ¬ (pyEndsWith (pyLower filename) ".heic" = true ∨
            pyEndsWith (pyLower filename) ".png" = true ∨
            pyEndsWith (pyLower filename) ".jpg" = true ∨
            pyEndsWith (pyLower filename) ".jpeg" = true)))) := by
  constructor
  · intro tag filename kind h
    simp [item_type, h]
  · intro tag filename h
    simp only [item_type, h]
    by_cases hc : (pyEndsWith (pyLower filename) ".heic" || pyEndsWith (pyLower filename) ".png"
        || pyEndsWith (pyLower filename) ".jpg" || pyEndsWith (pyLower filename) ".jpeg") = true
    · rw [if_pos hc]
      simp only [Bool.or_eq_true] at hc
      constructor
      · constructor
        · intro _
          tauto
        · intro _
          rfl
      · constructor
        · intro hmo
          exact absurd hmo (by decide)
        · intro hnd
          exact absurd (by tauto) hnd
    · rw [if_neg hc]
      simp only [Bool.or_eq_true] at hc
      constructor
      · constructor
        · intro him
          exact absurd him (by decide)
        · intro hd
          exact absurd (by tauto) hc
      · constructor
        · intro _
          intro hd
          exact hc (by tauto)
        · intro _
          rfl

/-- C8 witness. -/
theorem item_type_spec_witness :
    item_type "sometag" "IMG_0001.HeIC" = "image" :=
  ((item_type_spec.2 "sometag" "IMG_0001.HeIC" rfl).1).mpr (Or.inl (by decide))

theorem locationOf_decode_failure (ld : LocDecoders) (v : PyVal) (e1 e2 : String)
    (h1 : ld.parseB64 v = .error e1) (h2 : ld.parseRaw v = .error e2) :
    locationOf ld (some v) = Option.none := by
  simp only [locationOf]
  by_cases ht : truthy v = true
  · rw [if_pos ht, h1, h2]
  · rw [if_neg ht]

theorem coordinate_from_location (ld md : LocDecoders) (locField metaField : Option PyVal)
    (locKey gpsKey : String) (D : List (String × PyVal)) (a b : PyVal)
    (hloc : locationOf ld locField = some (.dict D))
    (hlat : dget D locKey = some (.tuple [a, b])) :
    coordinate ld md locField metaField locKey gpsKey = .ok (some b) := by
  have hne : D ≠ [] := by
    intro h0
    rw [h0] at hlat
    exact Option.noConfusion hlat
  have ht : truthy (.dict D) = true := by
    cases D with
    | nil => exact absurd rfl hne
    | cons x xs => rfl
  simp only [coordinate, hloc]
  rw [if_pos ht]
  simp [pyGetItem, hlat, pyIndex1]

theorem coordFromMeta_gps (md : LocDecoders) (metaField : Option PyVal) (gpsKey : String)
    (M G : List (String × PyVal)) (a b : PyVal)
    (hmeta : locationOf md metaField = some (.dict M))
    (hgps : dget M "\x7bGPS\x7d" = some (.dict G))
    (hval : dget G gpsKey = some (.tuple [a, b])) :
    coordFromMeta md metaField gpsKey = .ok (some b) := by
  have hMt : truthy (.dict M) = true := by
    cases M with
    | nil => rw [show dget ([] : List (String × PyVal)) "\x7bGPS\x7d" = Option.none from rfl] at hgps; exact Option.noConfusion hgps
    | cons x xs => rfl
  have hGt : truthy (.dict G) = true := by
    cases G with
    | nil => rw [show dget ([] : List (String × PyVal)) gpsKey = Option.none from rfl] at hval; exact Option.noConfusion hval
    | cons x xs => rfl
  simp only [coordFromMeta, hmeta]
  rw [if_pos hMt]
  simp only [pyGet, hgps]
  rw [if_pos hGt]
  simp [pyGetItem, hgps, hval, pyIndex1, truthy]

theorem coordinate_via_meta (ld md : LocDecoders) (locField metaField : Option PyVal)
    (locKey gpsKey : String)
    (h1 : locationOf ld locField = Option.none) :
    coordinate ld md locField metaField locKey gpsKey = coordFromMeta md metaField gpsKey := by
  simp [coordinate, h1]

/-- C9: the latitude and longitude accessors (a) return the second element
of the lat/lon entry of the decoded asset-record location structure when
that decode succeeds with such an entry, (b) otherwise return the second
element of the Latitude/Longitude entry of the GPS substructure of the
decoded master-record metadata blob when present, (c) return None when
both sources are absent, and (d) a decode failure (both parse attempts
raising) makes the source read as absent instead of propagating the
exception. -/
theorem coordinate_priority_spec :
    (∀ (ld md : LocDecoders) (locField metaField : Option PyVal)
       (D : List (String × PyVal)) (a b : PyVal),
       locationOf ld locField = some (.dict D) →
       dget D "lat" = some (.tuple [a, b]) →
       latitude ld md locField metaField = .ok (some b)) ∧
    (∀ (ld md : LocDecoders) (locField metaField : Option PyVal)
       (D : List (String × PyVal)) (a b : PyVal),
       locationOf ld locField = some (.dict D) →
       dget D "lon" = some (.tuple [a, b]) →
       longitude ld md locField metaField = .ok (some b)) ∧
    (∀ (ld md : LocDecoders) (locField metaField : Option PyVal)
       (M G : List (String × PyVal)) (a b : PyVal),
       locationOf ld locField = Option.none →
       locationOf md metaField = some (.dict M) →
       dget M "\x7bGPS\x7d" = some (.dict G) →
       dget G "Latitude" = some (.tuple [a, b]) →
       latitude ld md locField metaField = .ok (some b)) ∧
    (∀ (ld md : LocDecoders) (locField metaField : Option PyVal)
       (M G : List (String × PyVal)) (a b : PyVal),
       locationOf ld locField = Option.none →
       locationOf md metaField = some (.dict M) →
       dget M "\x7bGPS\x7d" = some (.dict G) →
       dget G "Longitude" = some (.tuple [a, b]) →
       longitude ld md locField metaField = .ok (some b)) ∧
    (∀ (ld md : LocDecoders) (locField metaField : Option PyVal),
       locationOf ld locField = Option.none →
       locationOf md metaField = Option.none →
       latitude ld md locField metaField = .ok Option.none ∧
       longitude ld md locField metaField = .ok Option.none) ∧
    (∀ (ld : LocDecoders) (v : PyVal) (e1 e2 : String),
       ld.parseB64 v = .error e1 → ld.parseRaw v = .error e2 →
       locationOf ld (some v) = Option.none) := by
  refine ⟨?_, ?_, ?_, ?_, ?_, ?_⟩
  · intro ld md lf mf D a b hloc hlat
    exact coordinate_from_location ld md lf mf "lat" "Latitude" D a b hloc hlat
  · intro ld md lf mf D a b hloc hlon
    exact coordinate_from_location ld md lf mf "lon" "Longitude" D a b hloc hlon
  · intro ld md lf mf M G a b h1 hmeta hgps hval
    rw [show latitude ld md lf mf = coordinate ld md lf mf "lat" "Latitude" from rfl,
      coordinate_via_meta ld md lf mf "lat" "Latitude" h1]
    exact coordFromMeta_gps md mf "Latitude" M G a b hmeta hgps hval
  · intro ld md lf mf M G a b h1 hmeta hgps hval
    rw [show longitude ld md lf mf = coordinate ld md lf mf "lon" "Longitude" from rfl,
      coordinate_via_meta ld md lf mf "lon" "Longitude" h1]
    exact coordFromMeta_gps md mf "Longitude" M G a b hmeta hgps hval
  · intro ld md lf mf h1 h2
    constructor
    · rw [show latitude ld md lf mf = coordinate ld md lf mf "lat" "Latitude" from rfl,
        coordinate_via_meta ld md lf mf "lat" "Latitude" h1]
      simp [coordFromMeta, h2]
    · rw [show longitude ld md lf mf = coordinate ld md lf mf "lon" "Longitude" from rfl,
        coordinate_via_meta ld md lf mf "lon" "Longitude" h1]
      simp [coordFromMeta, h2]
  · intro ld v e1 e2 h1 h2
    exact locationOf_decode_failure ld v e1 e2 h1 h2

/-- C9 witness. -/
theorem coordinate_priority_spec_witness :
    latitude ldW mdW (some (PyVal.str "blob")) Option.none = .ok (some (PyVal.int 42)) :=
  coordinate_priority_spec.1 ldW mdW (some (PyVal.str "blob")) Option.none
    [("lat", .tuple [.int 1, .int 42]), ("lon", .tuple [.int 1, .int 7])]
    (PyVal.int 1) (PyVal.int 42) rfl rfl
